import Mathlib

/-!
Verification of the sumomo orchestration system (TypeScript sources) against
its natural-language specification.  The TypeScript modules are shallowly
embedded: plain data and pure functions model `src/session/store.ts`,
`src/claude/runner.ts`, `src/slack/handlers.ts`, `src/git/worktree.ts` and the
orchestration loop of the main entry point.  JavaScript `Map`s are modelled as
association lists (when iteration order matters) or as functions to `Option`
(when only lookup matters); `Date.now()` timestamps are `Nat` milliseconds;
the external JSON library (`JSON.parse` plus field access) is a parameter.
-/

namespace Sumomo

/-! Part: Session store (`src/session/store.ts`)

`SessionStore` keeps a JavaScript `Map<SessionKey, SessionInfo>`.  A `Map`
never holds two entries with the same key, which we carry as a `Nodup`
hypothesis where counting matters.  Its iteration order is insertion order,
modelled by an association list. -/

/-- Structure `SessionInfo` from `src/session/store.ts`: the stored record.
`createdAt`/`lastUsedAt` are epoch milliseconds. -/
structure SessionInfo where
  sessionId : String
  createdAt : Nat
  lastUsedAt : Nat
  deriving Repr, DecidableEq

/-- The `Map<SessionKey, SessionInfo>` backing `SessionStore._sessions`. -/
abbrev SessionMap := List (String × SessionInfo)

/-- Lookup `Map.get(key)`: the entry stored under `key` (keys are unique in a
JavaScript `Map`, so the first match is the match). -/
def sessionLookup (m : SessionMap) (k : String) : Option SessionInfo :=
  (m.find? (fun p => p.1 == k)).map (·.2)

/-- Deletion `Map.delete(key)` on the session map. -/
def sessionDelete (m : SessionMap) (k : String) : SessionMap :=
  m.filter (fun p => !(p.1 == k))

/-- Method `SessionStore._getByKey` (`src/session/store.ts:56-73`): absent gives
`undefined`; an entry with `now - lastUsedAt > maxAge` is deleted and
`undefined` returned; otherwise `lastUsedAt` is refreshed in place and the
session id returned.  Returns the updated map together with the result. -/
def getByKey (maxAge now : Nat) (m : SessionMap) (k : String) :
    SessionMap × Option String :=
  match sessionLookup m k with
  | none => (m, none)
  | some s =>
    if maxAge < now - s.lastUsedAt then
      (sessionDelete m k, none)
    else
      (m.map (fun p => if p.1 == k then (p.1, { p.2 with lastUsedAt := now }) else p),
       some s.sessionId)

/-- Method `SessionStore.Cleanup` (`src/session/store.ts:167-183`): deletes every
entry with `now - lastUsedAt > maxAge` and returns how many were deleted. -/
def cleanupStore (maxAge now : Nat) (m : SessionMap) : SessionMap × Nat :=
  (m.filter (fun p => !(decide (maxAge < now - p.2.lastUsedAt))),
   m.countP (fun p => decide (maxAge < now - p.2.lastUsedAt)))

/-- Method `SessionStore._makeSlackKey` (`src/session/store.ts:42-44`). -/
def makeSlackKey (threadTs userId : String) : String :=
  "slack:" ++ threadTs ++ ":" ++ userId

/-- Method `SessionStore._makeGitHubKey` (`src/session/store.ts:49-51`). -/
def makeGitHubKey (owner repo : String) (issueNumber : Nat) : String :=
  "github:" ++ owner ++ "/" ++ repo ++ "#" ++ Nat.repr issueNumber

/-! Part: Decimal rendering

The session keys embed a JavaScript number through `${issueNumber}`, modelled
by `Nat.repr`.  We prove `Nat.repr` injective by relating core's fuelled
`Nat.toDigitsCore` to a structurally recursive digit list. -/

/-- Decimal digits of `n`, most significant first: the list that core's
`Nat.toDigitsCore 10` builds. -/
def decDigits (n : Nat) : List Char :=
  if _h : n < 10 then [Nat.digitChar n]
  else decDigits (n / 10) ++ [Nat.digitChar (n % 10)]
termination_by n
decreasing_by
  exact Nat.div_lt_self (by omega) (by omega)

/-! Part: Process execution adapter (`src/claude/runner.ts`)

`ClaudeRunner.Run` spawns the agent subprocess and installs a timeout handler,
two `data` handlers and `close`/`error` handlers, all guarded by one
`isResolved` flag.  The external JSON library behind `JSON.parse` is a
parameter `parse`; a parsed line is seen by `_parseJsonOutput` only through
the fields below, and JavaScript truthiness of a string field is
non-emptiness. -/

/-- One element of `json.message.content` as read by `_parseJsonOutput`
(`src/claude/runner.ts:373-377`): its `type` and `text` fields.  An absent or
non-string `text` is modelled as `""` (falsy, never pushed). -/
structure ContentBlock where
  type : String
  text : String
  deriving Repr, DecidableEq

/-- Field view of one successfully parsed JSON line
(`src/claude/runner.ts:364-387`): `session_id`, `type`, `message.content`
(present iff `json.message?.content` is non-null), `result` and `text`. -/
structure ParsedRecord where
  sessionId : Option String
  type : String
  messageContent : Option (List ContentBlock)
  result : Option String
  text : Option String
  deriving Repr, DecidableEq

/-- Text fragments one parsed record pushes onto `textParts`, in source
order (`src/claude/runner.ts:371-387`): assistant text blocks, then a truthy
`result`, then a truthy string `text`. -/
def recordTexts (r : ParsedRecord) : List String :=
  (if r.type = "assistant" then
    match r.messageContent with
    | some blocks =>
      blocks.filterMap (fun b =>
        if b.type = "text" then (if b.text = "" then none else some b.text) else none)
    | none => []
  else []) ++
  (match r.result with
   | some s => if s = "" then [] else [s]
   | none => []) ++
  (match r.text with
   | some s => if s = "" then [] else [s]
   | none => [])

/-- Session id one parsed record offers (`src/claude/runner.ts:367-369`):
`json.session_id` when truthy. -/
def recordSession (r : ParsedRecord) : Option String :=
  match r.sessionId with
  | some s => if s = "" then none else some s
  | none => none

/-- JavaScript `String.split(c)` on a single separator character. -/
def splitChar (c : Char) : List Char → List (List Char)
  | [] => [[]]
  | a :: rest =>
    if a = c then [] :: splitChar c rest
    else
      match splitChar c rest with
      | [] => [[a]]
      | r :: rs => (a :: r) :: rs

/-- JavaScript `String.trim()`: strip whitespace from both ends. -/
def trimData (l : List Char) : List Char :=
  ((l.dropWhile Char.isWhitespace).reverse.dropWhile Char.isWhitespace).reverse

/-- JavaScript `Array.join('\n')` over the collected text parts. -/
def joinParts : List String → List Char
  | [] => []
  | [p] => p.data
  | p :: ps => p.data ++ '\n' :: joinParts ps

/-- Fold step of the line loop of `_parseJsonOutput`
(`src/claude/runner.ts:359-393`): skip blank lines; push the trimmed line
itself when `JSON.parse` fails; otherwise push the record's fragments and let
its `session_id` override the one seen so far. -/
def parseLineStep (parse : String → Option ParsedRecord)
    (acc : List String × Option String) (line : String) : List String × Option String :=
  let trimmed := (trimData line.data).asString
  if trimmed = "" then acc
  else
    match parse trimmed with
    | none => (acc.1 ++ [trimmed], acc.2)
    | some r =>
      (acc.1 ++ recordTexts r,
       match recordSession r with
       | some s => some s
       | none => acc.2)

/-- Method `ClaudeRunner._parseJsonOutput` (`src/claude/runner.ts:351-399`):
split the buffered stdout into lines, fold `parseLineStep` over them, and
join the collected fragments with newlines. -/
def parseJsonOutput (parse : String → Option ParsedRecord) (output : String) :
    String × Option String :=
  let lines := (splitChar '\n' output.data).map List.asString
  let res := lines.foldl (parseLineStep parse) ([], none)
  ((joinParts res.1).asString, res.2)

/-- Contribution of a single line to the textual output (the per-line view of
`parseLineStep`, used to state what the fold computes). -/
def lineTexts (parse : String → Option ParsedRecord) (line : String) : List String :=
  let trimmed := (trimData line.data).asString
  if trimmed = "" then []
  else
    match parse trimmed with
    | none => [trimmed]
    | some r => recordTexts r

/-- Session id a single line offers (the per-line view of `parseLineStep`). -/
def lineSession (parse : String → Option ParsedRecord) (line : String) : Option String :=
  let trimmed := (trimData line.data).asString
  if trimmed = "" then none
  else
    match parse trimmed with
    | none => none
    | some r => recordSession r

/-- Structure `RunResult` from `src/claude/runner.ts:60-66`. -/
structure RunResult where
  success : Bool
  output : String
  prUrl : Option String
  error : Option String
  sessionId : Option String
  deriving Repr, DecidableEq

/-- Timeout handler of `ClaudeRunner.Run` (`src/claude/runner.ts:160-170`):
kill the process and resolve with the raw buffered stdout; note that no field
of the result carries a session id. -/
def timeoutResult (stdoutBuf : String) (timeout : Nat) : RunResult :=
  { success := false, output := stdoutBuf, prUrl := none,
    error := some ("Timeout after " ++ Nat.repr timeout ++ "ms"), sessionId := none }

/-- Close handler of `ClaudeRunner.Run` (`src/claude/runner.ts:199-227`):
parse the buffered stdout, then resolve with `success := code == 0`; the
extracted session id is surfaced on both branches.  The PR-URL regex engine is
the parameter `extractPr`. -/
def closeResult (parse : String → Option ParsedRecord)
    (extractPr : String → Option String)
    (stdoutBuf stderrBuf : String) (code : Int) : RunResult :=
  let p := parseJsonOutput parse stdoutBuf
  if code = 0 then
    { success := true, output := p.1, prUrl := extractPr p.1, error := none,
      sessionId := p.2 }
  else
    { success := false, output := p.1, prUrl := none,
      error := some (if stderrBuf = "" then "Process exited with code " ++ toString code
        else stderrBuf),
      sessionId := p.2 }

/-- Error handler of `ClaudeRunner.Run` (`src/claude/runner.ts:230-242`):
resolve with the raw stdout and the error message; no session id. -/
def spawnErrorResult (stdoutBuf msg : String) : RunResult :=
  { success := false, output := stdoutBuf, prUrl := none, error := some msg,
    sessionId := none }

/-- Sample `JSON.parse` field view used by concrete counterexamples: the
line `SESS` parses to a record carrying session id `S1`. -/
def sampleParse : String → Option ParsedRecord := fun s =>
  if s = "SESS" then
    some { sessionId := some "S1", type := "result", messageContent := none,
           result := some "done", text := none }
  else none

/-- One `data` event handler (`src/claude/runner.ts:173-196`): append the
whole chunk when the buffer length is still below the cap (else drop it
silently), and always forward the chunk to `onOutput` tagged with its
stream. -/
def dataEventStep (maxOutputSize : Nat) (tag : String)
    (st : String × List (String × String)) (chunk : String) :
    String × List (String × String) :=
  (if st.1.length < maxOutputSize then st.1 ++ chunk else st.1,
   st.2 ++ [(chunk, tag)])

/-- Fold of `dataEventStep` over the chunks one stream delivers, starting
from the empty buffer and no forwarded calls. -/
def runDataEvents (maxOutputSize : Nat) (tag : String) (chunks : List String) :
    String × List (String × String) :=
  chunks.foldl (dataEventStep maxOutputSize tag) ("", [])

/-- Events that can fire against one `ClaudeRunner.Run` promise: the timeout,
the process `close` (with exit code), and the process `error`. -/
inductive RunEvent
  | timeoutFire
  | procClose (code : Int)
  | procError (msg : String)
  deriving Repr, DecidableEq

/-- State of one `Run` call: the `isResolved` flag, the keys of
`_runningProcesses`, and every resolution the promise has performed. -/
structure RunState where
  isResolved : Bool
  procs : List String
  resolutions : List RunResult
  deriving Repr, DecidableEq

/-- Method `ClaudeRunner._killProcess` (`src/claude/runner.ts:321-329`):
delete the entry and report whether one was present.  `Stop` is exactly this
(`src/claude/runner.ts:300-302`). -/
def killProcess (procs : List String) (taskId : String) : List String × Bool :=
  if taskId ∈ procs then (procs.filter (fun t => !(t == taskId)), true)
  else (procs, false)

/-- Method `ClaudeRunner.IsRunning` (`src/claude/runner.ts:314-316`). -/
def runnerIsRunning (procs : List String) (taskId : String) : Bool :=
  procs.contains taskId

/-- Dispatch of one event against the three handlers of `Run`
(`src/claude/runner.ts:160-242`): each handler checks `isResolved`, sets it,
removes the task from `_runningProcesses` and resolves exactly one result. -/
def runEventStep (parse : String → Option ParsedRecord)
    (extractPr : String → Option String)
    (stdoutBuf stderrBuf : String) (timeout : Nat) (taskId : String)
    (st : RunState) : RunEvent → RunState
  | .timeoutFire =>
    if st.isResolved then st
    else
      { isResolved := true,
        procs := (killProcess st.procs taskId).1,
        resolutions := st.resolutions ++ [timeoutResult stdoutBuf timeout] }
  | .procClose code =>
    if st.isResolved then st
    else
      { isResolved := true,
        procs := st.procs.filter (fun t => !(t == taskId)),
        resolutions := st.resolutions ++
          [closeResult parse extractPr stdoutBuf stderrBuf code] }
  | .procError msg =>
    if st.isResolved then st
    else
      { isResolved := true,
        procs := st.procs.filter (fun t => !(t == taskId)),
        resolutions := st.resolutions ++ [spawnErrorResult stdoutBuf msg] }

/-- State of `Run` right after the spawn: unresolved, the task registered in
`_runningProcesses` (`src/claude/runner.ts:152-157`), nothing resolved. -/
def initRunState (taskId : String) : RunState :=
  { isResolved := false, procs := [taskId], resolutions := [] }

/-- All events delivered against one `Run` call, in order. -/
def runEvents (parse : String → Option ParsedRecord)
    (extractPr : String → Option String)
    (stdoutBuf stderrBuf : String) (timeout : Nat) (taskId : String)
    (events : List RunEvent) : RunState :=
  events.foldl (runEventStep parse extractPr stdoutBuf stderrBuf timeout taskId)
    (initRunState taskId)

/-! Part: Pending-request registries (`src/slack/handlers.ts`)

`_pendingApprovals` and `_pendingQuestions` are JavaScript `Map`s consulted
only by key, modelled as functions to `Option`.  A stored resolution callback
is modelled by recording the fired resolution as an event. -/

/-- The approval decision delivered to a resolve callback
(`ApprovalResult` in `src/types/index.ts`). -/
structure ApprovalDecision where
  decision : String
  comment : Option String
  respondedBy : String
  deriving Repr, DecidableEq

/-- Entry of `_pendingApprovals` (`src/slack/handlers.ts:42-50`), minus the
callback itself. -/
structure PendingApproval where
  requestId : String
  taskId : String
  tool : String
  command : String
  channelId : String
  messageTs : String
  deriving Repr, DecidableEq

/-- Entry of `_pendingQuestions` (`src/slack/handlers.ts:53-57`), minus the
callback itself. -/
structure PendingQuestion where
  requestId : String
  taskId : String
  deriving Repr, DecidableEq

abbrev ApprovalRegistry := String → Option PendingApproval

abbrev QuestionRegistry := String → Option PendingQuestion

/-- Insertion `Map.set` on the approval registry. -/
def approvalInsert (m : ApprovalRegistry) (id : String) (p : PendingApproval) :
    ApprovalRegistry :=
  fun k => if k = id then some p else m k

/-- Deletion `Map.delete` on the approval registry. -/
def approvalErase (m : ApprovalRegistry) (id : String) : ApprovalRegistry :=
  fun k => if k = id then none else m k

/-- Insertion `Map.set` on the question registry. -/
def questionInsert (m : QuestionRegistry) (id : String) (q : PendingQuestion) :
    QuestionRegistry :=
  fun k => if k = id then some q else m k

/-- Deletion `Map.delete` on the question registry. -/
def questionErase (m : QuestionRegistry) (id : String) : QuestionRegistry :=
  fun k => if k = id then none else m k

/-- Approval-modal submit handler (`src/slack/handlers.ts:248-293` for allow,
`296-337` for deny): look up the pending entry by request id; when absent, do
nothing; when present, fire its resolve callback with the decision, delete the
entry, and update the original message.  Returns the new registry, the fired
resolutions, the message updates `(channel, ts)`, and which branch ran. -/
def handleApprovalSubmit (decision : String) (m : ApprovalRegistry)
    (requestId comment userId : String) :
    ApprovalRegistry × List (PendingApproval × ApprovalDecision) ×
      List (String × String) × Bool :=
  match m requestId with
  | none => (m, [], [], false)
  | some pending =>
    (approvalErase m requestId,
     [(pending,
       { decision := decision,
         comment := if comment = "" then none else some comment,
         respondedBy := userId })],
     [(pending.channelId, pending.messageTs)],
     true)

/-- Answer-button handler (`src/slack/handlers.ts:340-379`): look up the
pending question; when present, fire its resolve callback with the answer,
delete the entry and update the message; when absent, do nothing. -/
def handleAnswerAction (m : QuestionRegistry) (requestId answer : String) :
    QuestionRegistry × List (PendingQuestion × String) × Bool :=
  match m requestId with
  | none => (m, [], false)
  | some pending =>
    (questionErase m requestId, [(pending, answer)], true)

/-- Ordered effects of `RequestApproval` (`src/slack/handlers.ts:385-479`):
synchronously register the pending entry (with empty `messageTs`), then post
the Slack message carrying the request id, then — in the posting promise's
continuation — fill in `messageTs` if the entry still exists. -/
inductive SlackEffect
  | registerApproval (requestId : String) (p : PendingApproval)
  | registerQuestion (requestId : String) (q : PendingQuestion)
  | postMessage (requestId : String)
  | updateMessageTs (requestId : String) (ts : String)
  deriving Repr, DecidableEq

def requestApprovalEffects (channelId requestId taskId tool command ts : String) :
    List SlackEffect :=
  [ .registerApproval requestId
      { requestId := requestId, taskId := taskId, tool := tool,
        command := command, channelId := channelId, messageTs := "" },
    .postMessage requestId,
    .updateMessageTs requestId ts ]

/-- Ordered effects of `AskQuestion` (`src/slack/handlers.ts:484-541`):
register the pending entry, then post the message with the answer buttons. -/
def askQuestionEffects (requestId taskId : String) : List SlackEffect :=
  [ .registerQuestion requestId { requestId := requestId, taskId := taskId },
    .postMessage requestId ]

/-- Application of one effect to the pair of registries; posting a message
touches neither registry. -/
def applyEffect (st : ApprovalRegistry × QuestionRegistry) :
    SlackEffect → ApprovalRegistry × QuestionRegistry
  | .registerApproval id p => (approvalInsert st.1 id p, st.2)
  | .registerQuestion id q => (st.1, questionInsert st.2 id q)
  | .postMessage _ => st
  | .updateMessageTs id ts =>
    (match st.1 id with
     | some p => approvalInsert st.1 id { p with messageTs := ts }
     | none => st.1,
     st.2)

/-! Part: Orchestration loop (main entry point, `src/git/worktree.ts:501-630`
of the concatenated sources)

`ProcessNextTask` checks `_isProcessing`, dequeues, sets the flag, runs the
task body, and in `finally` clears the flag and re-invokes itself.  The
synchronous prefix from the guard to the flag-set contains no `await`, so it
is one atomic step of the event loop; the body's completion (through the
`finally` block) is the other.  Tasks are identified by their id; the queue's
`GetNextTask` removes the oldest pending task (FIFO). -/

/-- Instrumented start/end events of task processing intervals. -/
inductive OrchEvent
  | taskBegin (id : String)
  | taskDone (id : String)
  deriving Repr, DecidableEq

/-- Orchestrator state: the `_isProcessing` and `_isRunning` flags, the
pending queue, the task currently inside `ProcessNextTask`, and the trace of
begin/done events. -/
structure OrchState where
  isProcessing : Bool
  isRunning : Bool
  queue : List String
  activeTask : Option String
  trace : List OrchEvent
  deriving Repr, DecidableEq

/-- Synchronous prefix of `ProcessNextTask` (`src/git/worktree.ts:501-513`):
return at once when `_isProcessing` is set or the app is stopped; otherwise
dequeue; if a task was there, set `_isProcessing` and begin it. -/
def orchEnter (s : OrchState) : OrchState :=
  if s.isProcessing then s
  else if !s.isRunning then s
  else
    match s.queue with
    | [] => s
    | t :: rest =>
      { s with isProcessing := true, queue := rest, activeTask := some t,
               trace := s.trace ++ [.taskBegin t] }

/-- Completion handling of the running task (`src/git/worktree.ts:600-629`):
mark it done, run the `finally` block (clear the pointer, clear
`_isProcessing`), then immediately re-invoke `ProcessNextTask`. -/
def orchFinish (s : OrchState) : OrchState :=
  match s.activeTask with
  | none => s
  | some t =>
    orchEnter { s with isProcessing := false, activeTask := none,
                       trace := s.trace ++ [.taskDone t] }

/-- External stimuli: a task enqueued (`AddTask` fires the `added` event,
which calls `ProcessNextTask`), a bare re-entrant trigger, and the running
task's body finishing. -/
inductive OrchCmd
  | addTask (id : String)
  | poke
  | finishTask
  deriving Repr, DecidableEq

def orchStep (s : OrchState) : OrchCmd → OrchState
  | .addTask id => orchEnter { s with queue := s.queue ++ [id] }
  | .poke => orchEnter s
  | .finishTask => orchFinish s

def orchInit : OrchState :=
  { isProcessing := false, isRunning := true, queue := [], activeTask := none,
    trace := [] }

def orchExec (cmds : List OrchCmd) : OrchState :=
  cmds.foldl orchStep orchInit

/-- Serialization check of a trace: scan left to right carrying the currently
open task; a second begin while one is open, or a done without a matching
begin, fails.  A trace passes iff the processing intervals are well-nested
with at most one open at any instant. -/
def runTrace : List OrchEvent → Option String → Option (Option String)
  | [], o => some o
  | .taskBegin i :: r, none => runTrace r (some i)
  | .taskDone i :: r, some j => if i = j then runTrace r none else none
  | .taskBegin _ :: _, some _ => none
  | .taskDone _ :: _, none => none

/-- Inductive invariant of the orchestrator: the trace scan succeeds and ends
with the currently active task open, and a clear `_isProcessing` flag means no
task is active. -/
def OrchInv (s : OrchState) : Prop :=
  runTrace s.trace none = some s.activeTask ∧
  (s.isProcessing = false → s.activeTask = none)

/-! Part: Worktree bookkeeping (`src/git/worktree.ts:18-271` and the tracker
task path of the main entry point)

`_activeWorktrees` is a `Map` consulted only by key; the filesystem is the
predicate parameter `dirExists`. -/

/-- Structure `WorktreeInfo` from `src/git/worktree.ts:10-16`. -/
structure WorktreeInfo where
  branchName : String
  worktreePath : String
  issueNumber : Nat
  owner : String
  repo : String
  deriving Repr, DecidableEq

abbrev WorktreeMap := String → Option WorktreeInfo

/-- Key scheme of `_activeWorktrees` (`src/git/worktree.ts:31`). -/
def worktreeKey (owner repo : String) (n : Nat) : String :=
  owner ++ "/" ++ repo ++ "#" ++ Nat.repr n

/-- Function `RemoveWorktree` (`src/git/worktree.ts:114-144`): when the key is
absent, do nothing; otherwise remove the checkout and delete the entry. -/
def removeWorktree (m : WorktreeMap) (owner repo : String) (n : Nat) : WorktreeMap :=
  match m (worktreeKey owner repo n) with
  | none => m
  | some _ => fun k => if k = worktreeKey owner repo n then none else m k

/-- Function `CreateWorktree` (`src/git/worktree.ts:23-109`): remove any
existing entry for the key, create the branch `sumomo/issue-N` and the
checkout under `.worktrees/issue-N`, and store the new record. -/
def createWorktree (m : WorktreeMap) (baseDir owner repo : String) (n : Nat) :
    WorktreeMap × WorktreeInfo :=
  let key := worktreeKey owner repo n
  let m1 := match m key with
    | some _ => removeWorktree m owner repo n
    | none => m
  let info : WorktreeInfo :=
    { branchName := "sumomo/issue-" ++ Nat.repr n,
      worktreePath := baseDir ++ "/.worktrees/issue-" ++ Nat.repr n,
      issueNumber := n, owner := owner, repo := repo }
  (fun k => if k = key then some info else m1 k, info)

/-- Function `GetOrCreateWorktree` (`src/git/worktree.ts:254-271`): reuse the
stored record when its directory still exists, else create afresh.  The third
component is `isExisting`. -/
def getOrCreateWorktree (dirExists : String → Bool) (m : WorktreeMap)
    (baseDir owner repo : String) (n : Nat) : WorktreeMap × WorktreeInfo × Bool :=
  match m (worktreeKey owner repo n) with
  | some existing =>
    if dirExists existing.worktreePath then (m, existing, true)
    else
      let c := createWorktree m baseDir owner repo n
      (c.1, c.2, false)
  | none =>
    let c := createWorktree m baseDir owner repo n
    (c.1, c.2, false)

/-- Worktree-map effect of `ProcessGitHubTask` (`src/git/worktree.ts:768-939`
of the concatenated sources): the only mutation of `_activeWorktrees` in the
whole body is `GetOrCreateWorktree`; neither the success path, the failure
path nor the catch block removes the worktree — the function ends with the
comment that the worktree is deliberately kept for session resumption. -/
def processGitHubTaskWorktrees (dirExists : String → Bool) (m : WorktreeMap)
    (baseDir owner repo : String) (n : Nat) : WorktreeMap :=
  (getOrCreateWorktree dirExists m baseDir owner repo n).1

/-- Worktree-map effect of `HandleIssueClosed` (`src/git/worktree.ts:463-488`
of the concatenated sources): remove the issue's worktree. -/
def handleIssueClosedWorktrees (m : WorktreeMap) (owner repo : String) (n : Nat) :
    WorktreeMap :=
  removeWorktree m owner repo n

theorem sessionLookup_cons (p : String × SessionInfo) (t : SessionMap) (k : String) :
    sessionLookup (p :: t) k
      = if (p.1 == k) = true then some p.2 else sessionLookup t k := by
  rw [sessionLookup, List.find?_cons]
  cases (p.1 == k) with
  | true => rfl
  | false => rfl

theorem sessionLookup_delete_self (m : SessionMap) (k : String) :
    sessionLookup (sessionDelete m k) k = none := by
  induction m with
  | nil => rfl
  | cons p t ih =>
    simp only [sessionDelete, List.filter_cons] at ih ⊢
    cases hb : (p.1 == k) with
    | true => simpa [hb] using ih
    | false => simpa [hb, sessionLookup_cons] using ih

theorem sessionLookup_refresh (m : SessionMap) (k : String) (s : SessionInfo) (now : Nat)
    (h : sessionLookup m k = some s) :
    sessionLookup
      (m.map (fun p => if p.1 == k then (p.1, { p.2 with lastUsedAt := now }) else p)) k
      = some { s with lastUsedAt := now } := by
  induction m with
  | nil => exact absurd h (by simp [sessionLookup])
  | cons p t ih =>
    rw [sessionLookup_cons] at h
    rw [List.map_cons]
    cases hb : (p.1 == k) with
    | true =>
      rw [hb, if_pos rfl] at h
      rw [sessionLookup_cons]
      simp only [hb, if_pos]
      injection h with h
      rw [← h]
    | false =>
      rw [hb] at h
      simp only [Bool.false_eq_true, if_neg, if_false] at h
      rw [sessionLookup_cons]
      simp only [hb, Bool.false_eq_true, if_false]
      exact ih h

theorem sessionDelete_of_not_mem (m : SessionMap) (k : String)
    (h : k ∉ m.map (·.1)) : sessionDelete m k = m := by
  induction m with
  | nil => rfl
  | cons p t ih =>
    rw [List.map_cons, List.mem_cons, not_or] at h
    have hb : (p.1 == k) = false := beq_eq_false_iff_ne.mpr (fun he => h.1 he.symm)
    simp only [sessionDelete, List.filter_cons, hb, Bool.not_false, if_pos] at ih ⊢
    rw [ih h.2]

theorem countP_delete_found (m : SessionMap) (k : String) (s : SessionInfo)
    (q : String × SessionInfo → Bool)
    (hnd : (m.map (·.1)).Nodup)
    (h : sessionLookup m k = some s) (hq : q (k, s) = true) :
    m.countP q = (sessionDelete m k).countP q + 1 := by
  induction m with
  | nil => exact absurd h (by simp [sessionLookup])
  | cons p t ih =>
    rw [List.map_cons, List.nodup_cons] at hnd
    rw [sessionLookup_cons] at h
    cases hb : (p.1 == k) with
    | true =>
      rw [hb, if_pos rfl] at h
      have hk : p.1 = k := beq_iff_eq.mp hb
      have hp : p = (k, s) := by
        cases p
        injection h with h
        simp_all
      have ht : sessionDelete t k = t :=
        sessionDelete_of_not_mem t k (by rw [← hk]; exact hnd.1)
      simp only [sessionDelete, List.filter_cons, hb, Bool.not_true, Bool.false_eq_true,
        if_false]
      rw [show (t.filter fun p => !(p.1 == k)) = t from ht, List.countP_cons, hp, hq]
      simp
    | false =>
      rw [hb] at h
      simp only [Bool.false_eq_true, if_false] at h
      have := ih hnd.2 h
      simp only [sessionDelete, List.filter_cons, hb, Bool.not_false, if_pos,
        List.countP_cons] at this ⊢
      omega

/-- C4: for every conversation key `k`, `get` refreshes and returns the handle
when the record is fresh (`now − lastUsed ≤ maxAge`), deletes the record and
returns absent when it is expired — after which the record contributes to no
later `Cleanup` count — and returns absent when no record exists. -/
theorem C4_session_get_contract (maxAge now : Nat) (m : SessionMap) (k : String) :
    (sessionLookup m k = none → getByKey maxAge now m k = (m, none)) ∧
    (∀ s, sessionLookup m k = some s → now - s.lastUsedAt ≤ maxAge →
      (getByKey maxAge now m k).2 = some s.sessionId ∧
      sessionLookup (getByKey maxAge now m k).1 k = some { s with lastUsedAt := now }) ∧
    (∀ s, sessionLookup m k = some s → maxAge < now - s.lastUsedAt →
      (m.map (·.1)).Nodup →
      (getByKey maxAge now m k).2 = none ∧
      sessionLookup (getByKey maxAge now m k).1 k = none ∧
      ∀ now2, now ≤ now2 →
        (cleanupStore maxAge now2 m).2
          = (cleanupStore maxAge now2 (getByKey maxAge now m k).1).2 + 1) := by
  refine ⟨fun h => by simp [getByKey, h], fun s hs hfresh => ?_, fun s hs hexp hnd => ?_⟩
  · have hnot : ¬ maxAge < now - s.lastUsedAt := not_lt.mpr hfresh
    constructor
    · simp [getByKey, hs, hnot]
    · simp only [getByKey, hs, hnot, if_false]
      exact sessionLookup_refresh m k s now hs
  · refine ⟨by simp [getByKey, hs, hexp], ?_, fun now2 h2 => ?_⟩
    · simp only [getByKey, hs, hexp, if_true]
      exact sessionLookup_delete_self m k
    · have hexp2 : maxAge < now2 - s.lastUsedAt :=
        lt_of_lt_of_le hexp (Nat.sub_le_sub_right h2 _)
    -- the purged entry satisfies the expiry test at every later time
      have := countP_delete_found m k s
        (fun p => decide (maxAge < now2 - p.2.lastUsedAt)) hnd hs (by simpa using hexp2)
      simp only [getByKey, hs, hexp, if_true, cleanupStore]
      exact this

/-- Witness for C4 at concrete inputs: a fresh read returns the handle, an
expired read purges the record, and the purge lowers the next sweep count. -/
theorem C4_session_get_contract_witness :
    (getByKey 10 5 [("k", ⟨"S1", 0, 0⟩)] "k").2 = some "S1" ∧
    (getByKey 10 20 [("k", ⟨"S1", 0, 0⟩)] "k").2 = none ∧
    (cleanupStore 10 25 [("k", ⟨"S1", 0, 0⟩)]).2
      = (cleanupStore 10 25 (getByKey 10 20 [("k", ⟨"S1", 0, 0⟩)] "k").1).2 + 1 := by
  refine ⟨((C4_session_get_contract 10 5 [("k", ⟨"S1", 0, 0⟩)] "k").2.1 ⟨"S1", 0, 0⟩
      (by decide) (by decide)).1,
    ((C4_session_get_contract 10 20 [("k", ⟨"S1", 0, 0⟩)] "k").2.2 ⟨"S1", 0, 0⟩
      (by decide) (by decide) (by decide)).1,
    ((C4_session_get_contract 10 20 [("k", ⟨"S1", 0, 0⟩)] "k").2.2 ⟨"S1", 0, 0⟩
      (by decide) (by decide) (by decide)).2.2 25 (by decide)⟩

theorem decDigits_eq_small {n : Nat} (h : n < 10) : decDigits n = [Nat.digitChar n] := by
  rw [decDigits]
  exact dif_pos h

theorem decDigits_eq_large {n : Nat} (h : ¬ n < 10) :
    decDigits n = decDigits (n / 10) ++ [Nat.digitChar (n % 10)] := by
  rw [decDigits]
  exact dif_neg h

theorem decDigits_ne_nil (n : Nat) : decDigits n ≠ [] := by
  by_cases h : n < 10
  · rw [decDigits_eq_small h]
    simp
  · rw [decDigits_eq_large h]
    simp

theorem digitChar_inj_lt10 :
    ∀ a, a < 10 → ∀ b, b < 10 → Nat.digitChar a = Nat.digitChar b → a = b := by
  decide

theorem decDigits_inj (m : Nat) : ∀ n, decDigits m = decDigits n → m = n := by
  induction m using Nat.strong_induction_on with
  | _ m ih =>
    intro n h
    by_cases hm : m < 10 <;> by_cases hn : n < 10
    · rw [decDigits_eq_small hm, decDigits_eq_small hn] at h
      injection h with h1 _
      exact digitChar_inj_lt10 m hm n hn h1
    · rw [decDigits_eq_small hm, decDigits_eq_large hn] at h
      have hlen := congrArg List.length h
      rw [List.length_append] at hlen
      simp only [List.length_singleton] at hlen
      have h0 : (decDigits (n / 10)).length = 0 := by omega
      exact absurd (List.length_eq_zero.mp h0) (decDigits_ne_nil (n / 10))
    · rw [decDigits_eq_large hm, decDigits_eq_small hn] at h
      have hlen := congrArg List.length h
      rw [List.length_append] at hlen
      simp only [List.length_singleton] at hlen
      have h0 : (decDigits (m / 10)).length = 0 := by omega
      exact absurd (List.length_eq_zero.mp h0) (decDigits_ne_nil (m / 10))
    · rw [decDigits_eq_large hm, decDigits_eq_large hn] at h
      have hr := congrArg List.reverse h
      simp only [List.reverse_append, List.reverse_cons, List.reverse_nil,
        List.nil_append, List.singleton_append] at hr
      injection hr with hd tl
      have hmod : m % 10 = n % 10 :=
        digitChar_inj_lt10 _ (Nat.mod_lt _ (by omega)) _ (Nat.mod_lt _ (by omega)) hd
      have hdiv : m / 10 = n / 10 :=
        ih (m / 10) (Nat.div_lt_self (by omega) (by omega)) (n / 10)
          (List.reverse_injective tl)
      have h1 := Nat.div_add_mod m 10
      have h2 := Nat.div_add_mod n 10
      omega

theorem toDigitsCore_succ (fuel n : Nat) (ds : List Char) :
    Nat.toDigitsCore 10 (fuel + 1) n ds =
      if n / 10 = 0 then Nat.digitChar (n % 10) :: ds
      else Nat.toDigitsCore 10 fuel (n / 10) (Nat.digitChar (n % 10) :: ds) := rfl

theorem toDigitsCore_eq_decDigits :
    ∀ (fuel n : Nat) (ds : List Char), n < 10 ^ (fuel + 1) →
      Nat.toDigitsCore 10 (fuel + 1) n ds = decDigits n ++ ds := by
  intro fuel
  induction fuel with
  | zero =>
    intro n ds h
    have h10 : n < 10 := by simpa using h
    have hdiv : n / 10 = 0 := Nat.div_eq_of_lt h10
    rw [toDigitsCore_succ, if_pos hdiv, decDigits_eq_small h10, Nat.mod_eq_of_lt h10]
    rfl
  | succ f ihf =>
    intro n ds h
    by_cases h10 : n < 10
    · have hdiv : n / 10 = 0 := Nat.div_eq_of_lt h10
      rw [toDigitsCore_succ, if_pos hdiv, decDigits_eq_small h10, Nat.mod_eq_of_lt h10]
      rfl
    · have hpos : 0 < n / 10 := Nat.div_pos (by omega) (by omega)
      have hdiv : ¬ n / 10 = 0 := by omega
      have hb : n / 10 < 10 ^ (f + 1) := by
        rw [Nat.div_lt_iff_lt_mul (by omega : 0 < 10)]
        calc n < 10 ^ (f + 1 + 1) := h
        _ = 10 ^ (f + 1) * 10 := pow_succ 10 (f + 1)
      rw [toDigitsCore_succ, if_neg hdiv]
      rw [ihf (n / 10) (Nat.digitChar (n % 10) :: ds) hb]
      rw [decDigits_eq_large h10, List.append_assoc]
      rfl

theorem natRepr_eq_decDigits (n : Nat) : Nat.repr n = (decDigits n).asString := by
  show (Nat.toDigits 10 n).asString = (decDigits n).asString
  rw [Nat.toDigits]
  have h1 : n < 10 ^ n := Nat.lt_pow_self (by omega) n
  have h2 : (10 : Nat) ^ n ≤ 10 ^ (n + 1) := Nat.pow_le_pow_right (by omega) (Nat.le_succ n)
  rw [toDigitsCore_eq_decDigits n n [] (lt_of_lt_of_le h1 h2), List.append_nil]

theorem natRepr_injective : ∀ m n : Nat, Nat.repr m = Nat.repr n → m = n := by
  intro m n h
  rw [natRepr_eq_decDigits, natRepr_eq_decDigits] at h
  apply decDigits_inj
  have h' : (List.asString (decDigits m)).data = (List.asString (decDigits n)).data :=
    congrArg String.data h
  simpa [List.asString] using h'

/-- Splitting a list at a separator absent from the left parts is unambiguous. -/
theorem append_sep_inj (c : Char) :
    ∀ (t1 t2 u1 u2 : List Char), c ∉ t1 → c ∉ t2 →
      t1 ++ c :: u1 = t2 ++ c :: u2 → t1 = t2 ∧ u1 = u2 := by
  intro t1
  induction t1 with
  | nil =>
    intro t2 u1 u2 _ h2 h
    cases t2 with
    | nil => simpa using h
    | cons b t2' =>
      simp only [List.nil_append, List.cons_append] at h
      injection h with hcb _
      subst hcb
      exact absurd (List.mem_cons_self _ _) h2
  | cons a t1' ih =>
    intro t2 u1 u2 h1 h2 h
    cases t2 with
    | nil =>
      simp only [List.cons_append, List.nil_append] at h
      injection h with hac _
      subst hac
      exact absurd (List.mem_cons_self _ _) h1
    | cons b t2' =>
      simp only [List.cons_append] at h
      injection h with hab hrest
      have h1' : c ∉ t1' := fun hc => h1 (List.mem_cons_of_mem a hc)
      have h2' : c ∉ t2' := fun hc => h2 (List.mem_cons_of_mem b hc)
      obtain ⟨he, hu⟩ := ih t2' u1 u2 h1' h2' hrest
      exact ⟨by rw [hab, he], hu⟩

theorem string_append_data (s t : String) : (s ++ t).data = s.data ++ t.data := rfl

theorem makeSlackKey_data (t u : String) :
    (makeSlackKey t u).data = "slack:".data ++ (t.data ++ (':' :: u.data)) := by
  simp [makeSlackKey, string_append_data, List.append_assoc]

theorem makeGitHubKey_data (o r : String) (n : Nat) :
    (makeGitHubKey o r n).data
      = "github:".data ++ (o.data ++ ('/' :: (r.data ++ ('#' :: (Nat.repr n).data)))) := by
  simp [makeGitHubKey, string_append_data, List.append_assoc]

/-- C5 counterexample: the chat-origin key scheme is not injective on all
input strings — a `':'` inside the thread id shifts the boundary between the
two fields, so two distinct `(threadTs, userId)` pairs share a key. -/
theorem C5_counterexample_slack_collision :
    makeSlackKey "a:b" "c" = makeSlackKey "a" "b:c" ∧ ("a:b" : String) ≠ "a" := by
  constructor
  · decide
  · decide

/-- C5 (amended): key construction is injective per origin type provided
`threadTs` contains no `':'`, `owner` no `'/'`, and `repo` no `'#'` (Slack
thread timestamps and GitHub owner/repo names satisfy this); a chat-origin
key never equals a tracker-origin key, unconditionally. -/
theorem C5_key_injective_amended :
    (∀ t1 u1 t2 u2 : String, ':' ∉ t1.data → ':' ∉ t2.data →
      makeSlackKey t1 u1 = makeSlackKey t2 u2 → t1 = t2 ∧ u1 = u2) ∧
    (∀ o1 r1 o2 r2 : String, ∀ n1 n2 : Nat, '/' ∉ o1.data → '/' ∉ o2.data →
      '#' ∉ r1.data → '#' ∉ r2.data →
      makeGitHubKey o1 r1 n1 = makeGitHubKey o2 r2 n2 →
      o1 = o2 ∧ r1 = r2 ∧ n1 = n2) ∧
    (∀ t u o r : String, ∀ n : Nat, makeSlackKey t u ≠ makeGitHubKey o r n) := by
  refine ⟨fun t1 u1 t2 u2 ht1 ht2 h => ?_, fun o1 r1 o2 r2 n1 n2 ho1 ho2 hr1 hr2 h => ?_,
    fun t u o r n h => ?_⟩
  · have hd := congrArg String.data h
    rw [makeSlackKey_data, makeSlackKey_data] at hd
    have hd' := List.append_cancel_left hd
    obtain ⟨he, hu⟩ := append_sep_inj ':' t1.data t2.data u1.data u2.data ht1 ht2 hd'
    exact ⟨String.ext he, String.ext hu⟩
  · have hd := congrArg String.data h
    rw [makeGitHubKey_data, makeGitHubKey_data] at hd
    have hd' := List.append_cancel_left hd
    obtain ⟨ho, hrest⟩ :=
      append_sep_inj '/' o1.data o2.data _ _ ho1 ho2 hd'
    obtain ⟨hr, hn⟩ :=
      append_sep_inj '#' r1.data r2.data _ _ hr1 hr2 hrest
    exact ⟨String.ext ho, String.ext hr,
      natRepr_injective n1 n2 (String.ext hn)⟩
  · have hd := congrArg String.data h
    rw [makeSlackKey_data, makeGitHubKey_data] at hd
    rw [show "slack:".data = 's' :: "lack:".data from rfl,
      show "github:".data = 'g' :: "ithub:".data from rfl] at hd
    simp only [List.cons_append] at hd
    injection hd with hsg _
    exact absurd hsg (by decide)

/-- Witness for the amended C5: the injectivity hypotheses are satisfiable
(a real Slack thread timestamp and GitHub-style names). -/
theorem C5_key_injective_amended_witness :
    ("1700000000.123456" : String) = "1700000000.123456" ∧
    ("U01ABCDE" : String) = "U01ABCDE" := by
  have h := C5_key_injective_amended.1 "1700000000.123456" "U01ABCDE"
    "1700000000.123456" "U01ABCDE" (by decide) (by decide) rfl
  exact ⟨h.1, h.2⟩

/-- C6 counterexample: a buffered stdout carrying the continuation handle
`S1` surfaces it through the close handler for exit code 0 and for exit code 1
alike, yet the timeout handler resolves without it. -/
theorem C6_counterexample_timeout_drops_session :
    (closeResult sampleParse (fun _ => none) "SESS" "" 0).sessionId = some "S1" ∧
    (closeResult sampleParse (fun _ => none) "SESS" "" 1).sessionId = some "S1" ∧
    (timeoutResult "SESS" 600000).sessionId = none := by
  refine ⟨by decide, by decide, rfl⟩

/-- C6 (amended): the continuation handle found in the buffered stdout is
surfaced on successful and on non-zero exit alike, but the timeout handler
resolves without parsing stdout, so a timed-out run never carries one. -/
theorem C6_session_surfaced_amended :
    (∀ (parse : String → Option ParsedRecord) (extractPr : String → Option String)
        (stdoutBuf stderrBuf : String) (code : Int),
      (closeResult parse extractPr stdoutBuf stderrBuf code).sessionId
        = (parseJsonOutput parse stdoutBuf).2) ∧
    (∀ (stdoutBuf : String) (t : Nat), (timeoutResult stdoutBuf t).sessionId = none) := by
  refine ⟨fun parse extractPr so se code => ?_, fun so t => rfl⟩
  unfold closeResult
  by_cases h : code = 0 <;> simp [h]

theorem dataEvents_fold_fwd (maxOutputSize : Nat) (tag : String) :
    ∀ (chunks : List String) (buf : String) (fwd : List (String × String)),
      (chunks.foldl (dataEventStep maxOutputSize tag) (buf, fwd)).2
        = fwd ++ chunks.map (fun c => (c, tag)) := by
  intro chunks
  induction chunks with
  | nil => intro buf fwd; simp
  | cons c cs ih =>
    intro buf fwd
    rw [List.foldl_cons]
    rw [show dataEventStep maxOutputSize tag (buf, fwd) c
      = ((dataEventStep maxOutputSize tag (buf, fwd) c).1, fwd ++ [(c, tag)]) from rfl]
    rw [ih]
    simp

theorem dataEvents_fold_len (maxOutputSize L : Nat) (tag : String) :
    ∀ (chunks : List String) (buf : String) (fwd : List (String × String)),
      (∀ c ∈ chunks, c.length ≤ L) → buf.length ≤ maxOutputSize + L →
      (chunks.foldl (dataEventStep maxOutputSize tag) (buf, fwd)).1.length
        ≤ maxOutputSize + L := by
  intro chunks
  induction chunks with
  | nil => intro buf fwd _ hb; simpa using hb
  | cons c cs ih =>
    intro buf fwd hc hb
    rw [List.foldl_cons]
    apply ih
    · exact fun x hx => hc x (List.mem_cons_of_mem c hx)
    · have hcl : c.length ≤ L := hc c (List.mem_cons_self c cs)
      by_cases h : buf.length < maxOutputSize
      · simp only [dataEventStep, h, if_pos, String.length_append]
        omega
      · simpa [dataEventStep, h] using hb

/-- C8 counterexample: with a 5-byte cap, two 4-byte chunks leave an 8-byte
buffer — the in-memory buffer does exceed `maxOutputBytes`, because the guard
only checks the length before appending a whole chunk. -/
theorem C8_counterexample_buffer_exceeds_cap :
    (runDataEvents 5 "stdout" ["aaaa", "bbbb"]).1 = "aaaabbbb" ∧
    ¬ ("aaaabbbb" : String).length ≤ 5 := by
  exact ⟨rfl, by decide⟩

/-- C8 (amended): a chunk is appended only while the buffer is still shorter
than `maxOutputBytes`, so the buffer overshoots the cap by less than one
chunk: it stays within `maxOutputBytes + L` for any bound `L` on the chunk
sizes, further bytes are dropped silently, and every chunk is still forwarded
verbatim to the output callback tagged with its stream. -/
theorem C8_output_cap_amended (maxOutputSize : Nat) (tag : String)
    (chunks : List String) (L : Nat) (hL : ∀ c ∈ chunks, c.length ≤ L) :
    (runDataEvents maxOutputSize tag chunks).1.length ≤ maxOutputSize + L ∧
    (runDataEvents maxOutputSize tag chunks).2 = chunks.map (fun c => (c, tag)) := by
  constructor
  · exact dataEvents_fold_len maxOutputSize L tag chunks "" [] hL (by simp)
  · simpa using dataEvents_fold_fwd maxOutputSize tag chunks "" []

/-- Witness for the amended C8 at the counterexample's inputs. -/
theorem C8_output_cap_amended_witness :
    (runDataEvents 5 "stdout" ["aaaa", "bbbb"]).1.length ≤ 5 + 4 ∧
    (runDataEvents 5 "stdout" ["aaaa", "bbbb"]).2
      = [("aaaa", "stdout"), ("bbbb", "stdout")] := by
  have h := C8_output_cap_amended 5 "stdout" ["aaaa", "bbbb"] 4 (by decide)
  exact ⟨h.1, by simpa using h.2⟩

/-- C2: for every pending approval or question id the resolution fires at most
once — the first attempt fires the stored callback, deletes the entry and
takes the found branch (reported true); a second attempt for the same id
finds nothing, fires nothing, changes nothing and takes the absent branch
(reported false). -/
theorem handleApprovalSubmit_absent (d : String) (m : ApprovalRegistry)
    (requestId c u : String) (h : m requestId = none) :
    handleApprovalSubmit d m requestId c u = (m, [], [], false) := by
  simp [handleApprovalSubmit, h]

theorem handleAnswerAction_absent (m : QuestionRegistry) (requestId answer : String)
    (h : m requestId = none) :
    handleAnswerAction m requestId answer = (m, [], false) := by
  simp [handleAnswerAction, h]

theorem C2_resolve_at_most_once
    (m : ApprovalRegistry) (q : QuestionRegistry)
    (requestId d1 d2 c1 u1 c2 u2 answer1 answer2 : String)
    (p : PendingApproval) (pq : PendingQuestion)
    (hp : m requestId = some p) (hq : q requestId = some pq) :
    (handleApprovalSubmit d1 m requestId c1 u1).2.2.2 = true ∧
    (handleApprovalSubmit d1 m requestId c1 u1).2.1
      = [(p, { decision := d1, comment := if c1 = "" then none else some c1,
               respondedBy := u1 })] ∧
    (handleApprovalSubmit d1 m requestId c1 u1).1 requestId = none ∧
    handleApprovalSubmit d2 (handleApprovalSubmit d1 m requestId c1 u1).1 requestId c2 u2
      = ((handleApprovalSubmit d1 m requestId c1 u1).1, [], [], false) ∧
    (handleAnswerAction q requestId answer1).2.2 = true ∧
    (handleAnswerAction q requestId answer1).2.1 = [(pq, answer1)] ∧
    handleAnswerAction (handleAnswerAction q requestId answer1).1 requestId answer2
      = ((handleAnswerAction q requestId answer1).1, [], false) := by
  have h1 : (handleApprovalSubmit d1 m requestId c1 u1).1 requestId = none := by
    simp [handleApprovalSubmit, hp, approvalErase]
  have h2 : (handleAnswerAction q requestId answer1).1 requestId = none := by
    simp [handleAnswerAction, hq, questionErase]
  exact ⟨by simp [handleApprovalSubmit, hp], by simp [handleApprovalSubmit, hp],
    h1, handleApprovalSubmit_absent d2 _ requestId c2 u2 h1,
    by simp [handleAnswerAction, hq], by simp [handleAnswerAction, hq],
    handleAnswerAction_absent _ requestId answer2 h2⟩

/-- Witness for C2: a concrete registry holding request `R1`; resolving twice
reports true then false, and the second attempt leaves no trace. -/
theorem C2_resolve_at_most_once_witness :
    (handleApprovalSubmit "deny"
      (fun k => if k = "R1" then
        some { requestId := "R1", taskId := "T1", tool := "Bash",
               command := "git push", channelId := "C01", messageTs := "1.2" }
        else none)
      "R1" "" "U1").2.2.2 = true ∧
    handleApprovalSubmit "deny"
      ((handleApprovalSubmit "deny"
        (fun k => if k = "R1" then
          some { requestId := "R1", taskId := "T1", tool := "Bash",
                 command := "git push", channelId := "C01", messageTs := "1.2" }
          else none)
        "R1" "" "U1").1) "R1" "" "U1"
      = ((handleApprovalSubmit "deny"
          (fun k => if k = "R1" then
            some { requestId := "R1", taskId := "T1", tool := "Bash",
                   command := "git push", channelId := "C01", messageTs := "1.2" }
            else none)
          "R1" "" "U1").1, [], [], false) := by
  have h := C2_resolve_at_most_once
    (fun k => if k = "R1" then
      some { requestId := "R1", taskId := "T1", tool := "Bash",
             command := "git push", channelId := "C01", messageTs := "1.2" }
      else none)
    (fun k => if k = "R1" then some { requestId := "R1", taskId := "T1" } else none)
    "R1" "deny" "deny" "" "U1" "" "U1" "yes" "no"
    { requestId := "R1", taskId := "T1", tool := "Bash",
      command := "git push", channelId := "C01", messageTs := "1.2" }
    { requestId := "R1", taskId := "T1" } (by simp) (by simp)
  exact ⟨h.1, h.2.2.2.1⟩

theorem runEventStep_resolved (parse : String → Option ParsedRecord)
    (extractPr : String → Option String) (so se : String) (t : Nat) (taskId : String)
    (st : RunState) (h : st.isResolved = true) (e : RunEvent) :
    runEventStep parse extractPr so se t taskId st e = st := by
  cases e <;> simp [runEventStep, h]

theorem runEvents_foldl_resolved (parse : String → Option ParsedRecord)
    (extractPr : String → Option String) (so se : String) (t : Nat) (taskId : String) :
    ∀ (events : List RunEvent) (st : RunState), st.isResolved = true →
      events.foldl (runEventStep parse extractPr so se t taskId) st = st := by
  intro events
  induction events with
  | nil => intro st _; rfl
  | cons e es ih =>
    intro st h
    rw [List.foldl_cons, runEventStep_resolved parse extractPr so se t taskId st h e,
      ih st h]

theorem runEventStep_first (parse : String → Option ParsedRecord)
    (extractPr : String → Option String) (so se : String) (t : Nat) (taskId : String)
    (e : RunEvent) :
    ∃ r, runEventStep parse extractPr so se t taskId (initRunState taskId) e
      = { isResolved := true, procs := [], resolutions := [r] } := by
  cases e with
  | timeoutFire =>
    refine ⟨timeoutResult so t, ?_⟩
    simp [runEventStep, initRunState, killProcess]
  | procClose code =>
    refine ⟨closeResult parse extractPr so se code, ?_⟩
    simp [runEventStep, initRunState]
  | procError msg =>
    refine ⟨spawnErrorResult so msg, ?_⟩
    simp [runEventStep, initRunState]

/-- C10: for every sequence of timeout/close/error events against one `Run`
call, exactly one resolution fires as soon as any event arrives (the
`isResolved` flag makes the paths mutually exclusive), and once resolved the
task is gone from the running-process map, so `IsRunning` reports false and a
subsequent `Stop` returns false; before any event the task is registered and
unresolved. -/
theorem C10_run_resolves_once (parse : String → Option ParsedRecord)
    (extractPr : String → Option String) (so se : String) (t : Nat) (taskId : String)
    (events : List RunEvent) :
    (runEvents parse extractPr so se t taskId events).resolutions.length
      = cond events.isEmpty 0 1 ∧
    (runEvents parse extractPr so se t taskId events).isResolved = !events.isEmpty ∧
    runnerIsRunning (runEvents parse extractPr so se t taskId events).procs taskId
      = events.isEmpty ∧
    (killProcess (runEvents parse extractPr so se t taskId events).procs taskId).2
      = events.isEmpty := by
  cases events with
  | nil =>
    refine ⟨rfl, rfl, ?_, ?_⟩
    · simp [runEvents, initRunState, runnerIsRunning]
    · simp [runEvents, initRunState, killProcess]
  | cons e es =>
    obtain ⟨r, hr⟩ := runEventStep_first parse extractPr so se t taskId e
    have hall : runEvents parse extractPr so se t taskId (e :: es)
        = { isResolved := true, procs := [], resolutions := [r] } := by
      rw [runEvents, List.foldl_cons, hr,
        runEvents_foldl_resolved parse extractPr so se t taskId es _ rfl]
    refine ⟨by rw [hall]; rfl, by rw [hall]; rfl, ?_, ?_⟩
    · rw [hall]; simp [runnerIsRunning]
    · rw [hall]; simp [killProcess]

theorem parseLineStep_eq (parse : String → Option ParsedRecord)
    (acc : List String × Option String) (line : String) :
    parseLineStep parse acc line
      = (acc.1 ++ lineTexts parse line,
         match lineSession parse line with
         | some s => some s
         | none => acc.2) := by
  unfold parseLineStep lineTexts lineSession
  by_cases h : (trimData line.data).asString = ""
  · simp [h]
  · simp only [h, if_false]
    cases parse ((trimData line.data).asString) with
    | none => simp
    | some r => rfl

theorem parse_fold_spec (parse : String → Option ParsedRecord) :
    ∀ (lines : List String) (acc : List String × Option String),
      lines.foldl (parseLineStep parse) acc
        = (acc.1 ++ (lines.map (lineTexts parse)).flatten,
           match (lines.filterMap (lineSession parse)).getLast? with
           | some s => some s
           | none => acc.2) := by
  intro lines
  induction lines with
  | nil => intro acc; simp
  | cons l ls ih =>
    intro acc
    rw [List.foldl_cons, parseLineStep_eq, ih]
    simp only [Prod.mk.injEq]
    constructor
    · rw [List.map_cons, List.flatten_cons, List.append_assoc]
    · rw [List.filterMap_cons]
      cases hls : lineSession parse l with
      | none => rfl
      | some s0 =>
        rw [List.getLast?_cons]
        cases hrest : (ls.filterMap (lineSession parse)).getLast? <;> simp [hrest]

/-- C7 counterexample: a line that fails to parse is appended after trimming,
not as-is — the stdout `"  hello"` (with any parse function rejecting it)
yields the textual output `"hello"`. -/
theorem C7_counterexample_line_trimmed :
    (parseJsonOutput (fun _ => none) "  hello").1 = "hello" ∧
    ("hello" : String) ≠ "  hello" := by
  exact ⟨by decide, by decide⟩

/-- C7 (amended): `_parseJsonOutput` splits stdout on newlines; every line
that parses contributes its assistant text blocks, `result` text and `text`
field in encounter order; every line that fails to parse is appended after
whitespace trimming (and blank lines are skipped); the returned continuation
handle is the `session_id` of the most recent record carrying one (last one
wins). -/
theorem C7_parse_output_amended (parse : String → Option ParsedRecord) (output : String) :
    parseJsonOutput parse output
      = ((joinParts ((((splitChar '\n' output.data).map List.asString).map
            (lineTexts parse)).flatten)).asString,
         (((splitChar '\n' output.data).map List.asString).filterMap
            (lineSession parse)).getLast?) := by
  show ((joinParts (((splitChar '\n' output.data).map List.asString).foldl
      (parseLineStep parse) ([], none)).1).asString,
    (((splitChar '\n' output.data).map List.asString).foldl
      (parseLineStep parse) ([], none)).2) = _
  rw [parse_fold_spec]
  simp only [Prod.mk.injEq, List.nil_append]
  constructor
  · trivial
  · cases h : (((splitChar '\n' output.data).map List.asString).filterMap
      (lineSession parse)).getLast? <;> simp [h]

/-- C3: both registration helpers insert the pending entry synchronously
before the Slack message carrying the request id is posted — the registration
is the entire first effect of each sequence — and after any nonempty prefix
of the effect sequence the entry is in the registry, so a resolve issued at
any time after registration finds it and succeeds: the decision is never
lost. -/
theorem C3_register_before_notify
    (ch id task tool cmd ts : String) (st0 : ApprovalRegistry × QuestionRegistry)
    (d c u answer : String) :
    (requestApprovalEffects ch id task tool cmd ts).take 1
      = [.registerApproval id
          { requestId := id, taskId := task, tool := tool, command := cmd,
            channelId := ch, messageTs := "" }] ∧
    (askQuestionEffects id task).take 1
      = [.registerQuestion id { requestId := id, taskId := task }] ∧
    (∀ n, 1 ≤ n →
      (handleApprovalSubmit d
        (((requestApprovalEffects ch id task tool cmd ts).take n).foldl applyEffect st0).1
        id c u).2.2.2 = true) ∧
    (∀ n, 1 ≤ n →
      (handleAnswerAction
        (((askQuestionEffects id task).take n).foldl applyEffect st0).2
        id answer).2.2 = true) := by
  refine ⟨rfl, rfl, fun n hn => ?_, fun n hn => ?_⟩
  · match n, hn with
    | 1, _ =>
      simp [requestApprovalEffects, applyEffect, approvalInsert, handleApprovalSubmit]
    | 2, _ =>
      simp [requestApprovalEffects, applyEffect, approvalInsert, handleApprovalSubmit]
    | (k+3), _ =>
      rw [List.take_of_length_le (by simp [requestApprovalEffects])]
      simp [requestApprovalEffects, applyEffect, approvalInsert, handleApprovalSubmit]
  · match n, hn with
    | 1, _ =>
      simp [askQuestionEffects, applyEffect, questionInsert, handleAnswerAction]
    | (k+2), _ =>
      rw [List.take_of_length_le (by simp [askQuestionEffects])]
      simp [askQuestionEffects, applyEffect, questionInsert, handleAnswerAction]

/-- Witness for C3: registering approval `R1` and then resolving after the
notification was posted (prefix of length 2) succeeds, with empty initial
registries. -/
theorem C3_register_before_notify_witness :
    (handleApprovalSubmit "allow"
      (((requestApprovalEffects "C01" "R1" "T1" "Bash" "git push" "111.2").take 2).foldl
        applyEffect (fun _ => none, fun _ => none)).1 "R1" "" "U1").2.2.2 = true := by
  exact (C3_register_before_notify "C01" "R1" "T1" "Bash" "git push" "111.2"
    (fun _ => none, fun _ => none) "allow" "" "U1" "yes").2.2.1 2 (by omega)

theorem runTrace_append (a b : List OrchEvent) (o : Option String) :
    runTrace (a ++ b) o
      = match runTrace a o with
        | some cur => runTrace b cur
        | none => none := by
  induction a generalizing o with
  | nil => simp [runTrace]
  | cons e t ih =>
    cases e with
    | taskBegin i =>
      cases o with
      | none => simpa [runTrace] using ih (some i)
      | some j => simp [runTrace]
    | taskDone i =>
      cases o with
      | none => simp [runTrace]
      | some j =>
        by_cases h : i = j
        · simpa [runTrace, h] using ih none
        · simp [runTrace, h]

theorem orchEnter_inv (s : OrchState) (h : OrchInv s) : OrchInv (orchEnter s) := by
  unfold orchEnter
  cases hp : s.isProcessing with
  | true => simpa [hp] using h
  | false =>
    cases hr : s.isRunning with
    | false => simpa [hp, hr] using h
    | true =>
      cases hq : s.queue with
      | nil => simpa [hp, hr, hq] using h
      | cons t rest =>
        simp only [hp, hr, hq, Bool.not_true, Bool.false_eq_true, if_false]
        unfold OrchInv at h ⊢
        constructor
        · show runTrace (s.trace ++ [.taskBegin t]) none = some (some t)
          rw [runTrace_append, h.1, h.2 hp]
          simp [runTrace]
        · intro hfalse
          exact absurd hfalse (by simp)

theorem orchFinish_inv (s : OrchState) (h : OrchInv s) : OrchInv (orchFinish s) := by
  unfold orchFinish
  cases ha : s.activeTask with
  | none => simpa [ha] using h
  | some t =>
    simp only [ha]
    apply orchEnter_inv
    unfold OrchInv at h ⊢
    constructor
    · show runTrace (s.trace ++ [.taskDone t]) none = some none
      rw [runTrace_append, h.1, ha]
      simp [runTrace]
    · intro _
      rfl

theorem orchStep_inv (s : OrchState) (h : OrchInv s) (c : OrchCmd) :
    OrchInv (orchStep s c) := by
  cases c with
  | addTask id => exact orchEnter_inv { s with queue := s.queue ++ [id] } h
  | poke => exact orchEnter_inv s h
  | finishTask => exact orchFinish_inv s h

theorem orchExec_inv (cmds : List OrchCmd) : OrchInv (orchExec cmds) := by
  suffices h : ∀ (l : List OrchCmd) (s : OrchState), OrchInv s → OrchInv (l.foldl orchStep s) by
    exact h cmds orchInit ⟨rfl, fun _ => rfl⟩
  intro l
  induction l with
  | nil => intro s hs; exact hs
  | cons c cs ih => intro s hs; exact ih _ (orchStep_inv s hs c)

/-- C1: the orchestration loop is single-flight.  Entering `ProcessNextTask`
while `_isProcessing` is set leaves the whole state untouched — in particular
nothing is dequeued — and in every reachable execution the begin/done trace
passes the serialization scan `runTrace` ending exactly at the currently
active task: processing intervals never overlap, and a new task begins only
after the previous task's completion handling (the `finally` block, which
clears the flag) has finished. -/
theorem C1_single_flight :
    (∀ cmds : List OrchCmd,
      runTrace (orchExec cmds).trace none = some (orchExec cmds).activeTask) ∧
    (∀ s : OrchState,
      orchEnter { s with isProcessing := true } = { s with isProcessing := true }) := by
  constructor
  · intro cmds
    exact (orchExec_inv cmds).1
  · intro s
    rfl

/-- C9: after a tracker task completes — successfully or not, since no path of
`ProcessGitHubTask` touches `_activeWorktrees` after `GetOrCreateWorktree` —
the worktree record persists under the issue key, a later task for the same
issue finds and reuses it (with its directory intact, `isExisting` is true and
the same record is returned), and the record is removed exactly by the
issue-closed handler. -/
theorem C9_worktree_persists_until_issue_closed
    (dirExists : String → Bool) (m : WorktreeMap) (baseDir owner repo : String) (n : Nat) :
    ∃ info : WorktreeInfo,
      processGitHubTaskWorktrees dirExists m baseDir owner repo n (worktreeKey owner repo n)
        = some info ∧
      getOrCreateWorktree (fun _ => true)
        (processGitHubTaskWorktrees dirExists m baseDir owner repo n) baseDir owner repo n
        = (processGitHubTaskWorktrees dirExists m baseDir owner repo n, info, true) ∧
      handleIssueClosedWorktrees
        (processGitHubTaskWorktrees dirExists m baseDir owner repo n) owner repo n
        (worktreeKey owner repo n) = none := by
  unfold processGitHubTaskWorktrees handleIssueClosedWorktrees
  cases hm : m (worktreeKey owner repo n) with
  | some existing =>
    by_cases hd : dirExists existing.worktreePath
    · refine ⟨existing, ?_, ?_, ?_⟩
      · simp [getOrCreateWorktree, hm, hd]
      · simp [getOrCreateWorktree, hm, hd]
      · simp [getOrCreateWorktree, hm, hd, removeWorktree]
    · refine ⟨(createWorktree m baseDir owner repo n).2, ?_, ?_, ?_⟩
      · simp [getOrCreateWorktree, hm, hd, createWorktree]
      · simp [getOrCreateWorktree, hm, hd, createWorktree]
      · simp [getOrCreateWorktree, hm, hd, createWorktree, removeWorktree]
  | none =>
    refine ⟨(createWorktree m baseDir owner repo n).2, ?_, ?_, ?_⟩
    · simp [getOrCreateWorktree, hm, createWorktree]
    · simp [getOrCreateWorktree, hm, createWorktree]
    · simp [getOrCreateWorktree, hm, createWorktree, removeWorktree]

end Sumomo
